import Mathlib

/-!
Shallow embedding of the `kagi` password deriver (github.com/hajimehoshi/kagi).

Go strings are modelled as lists of bytes (`List Nat`, each element a byte
value).  All configuration input exercised by the specification is ASCII; the
whitespace classification used by `strings.Fields` / `strings.TrimSpace` is
modelled at the byte level with the ASCII whitespace set (the Unicode
whitespace code points above 0x7F are multi-byte in UTF-8 and never occur in
the base64 alphabet or in the specification's examples).  `[]rune` conversion
and `string(rune)` encoding are modelled by a faithful UTF-8 decoder/encoder
following Go's `unicode/utf8` package, including the replacement of invalid
input by U+FFFD.  Partial operations of the source (Go slice expressions, which
panic when out of range) are modelled with `Option`.
-/

namespace Kagi

/-- A Go string: a list of byte values. -/
abbrev GoStr := List Nat

/-- Byte list of an ASCII Lean string literal (used for concrete inputs). -/
def strB (s : String) : GoStr := s.data.map Char.toNat

/-- ASCII whitespace bytes, the byte-level model of `unicode.IsSpace`
(' ', '\t', '\n', '\v', '\f', '\r'). -/
def isSpaceB (b : Nat) : Bool := b = 32 || b = 9 || b = 10 || b = 11 || b = 12 || b = 13

/-- Model of `strings.TrimSpace`. -/
def trimSpace (s : GoStr) : GoStr := ((s.dropWhile isSpaceB).reverse.dropWhile isSpaceB).reverse

/-- Accumulator-based worker for `goFields`. -/
def fieldsAux : GoStr → GoStr → List GoStr
  | acc, [] => if acc = [] then [] else [acc.reverse]
  | acc, b :: rest =>
    if isSpaceB b then
      if acc = [] then fieldsAux [] rest else acc.reverse :: fieldsAux [] rest
    else fieldsAux (b :: acc) rest

/-- Model of `strings.Fields`: split around runs of whitespace. -/
def goFields (s : GoStr) : List GoStr := fieldsAux [] s

/-- Model of `strconv.Atoi`: optional sign, a non-empty run of decimal digits,
value restricted to the 64-bit signed range (out of range is an error). -/
def goAtoi (s : GoStr) : Option Int :=
  let p : Int × GoStr :=
    match s with
    | 43 :: rest => (1, rest)
    | 45 :: rest => (-1, rest)
    | _ => (1, s)
  if p.2 = [] then none
  else if p.2.all (fun b => 48 ≤ b && b ≤ 57) then
    let v : Nat := p.2.foldl (fun acc b => acc * 10 + (b - 48)) 0
    let i : Int := p.1 * v
    if -(2 ^ 63) ≤ i ∧ i ≤ 2 ^ 63 - 1 then some i else none
  else none

/-- Second-byte acceptance range for a UTF-8 leading byte (Go's
`utf8.acceptRanges`). -/
def utf8Accept (b0 : Nat) : Nat × Nat :=
  if b0 = 0xE0 then (0xA0, 0xBF)
  else if b0 = 0xED then (0x80, 0x9F)
  else if b0 = 0xF0 then (0x90, 0xBF)
  else if b0 = 0xF4 then (0x80, 0x8F)
  else (0x80, 0xBF)

/-- Model of `utf8.DecodeRune`: the first rune of a byte list and the number
of bytes it occupies; invalid input yields (U+FFFD, 1). -/
def utf8Step : List Nat → Nat × Nat
  | [] => (0xFFFD, 0)
  | b0 :: rest =>
    if b0 < 0x80 then (b0, 1)
    else if 0xC2 ≤ b0 ∧ b0 ≤ 0xDF then
      match rest with
      | b1 :: _ =>
        if 0x80 ≤ b1 ∧ b1 ≤ 0xBF then ((b0 - 0xC0) * 64 + (b1 - 0x80), 2) else (0xFFFD, 1)
      | [] => (0xFFFD, 1)
    else if 0xE0 ≤ b0 ∧ b0 ≤ 0xEF then
      match rest with
      | b1 :: b2 :: _ =>
        if (utf8Accept b0).1 ≤ b1 ∧ b1 ≤ (utf8Accept b0).2 ∧ 0x80 ≤ b2 ∧ b2 ≤ 0xBF then
          ((b0 - 0xE0) * 4096 + (b1 - 0x80) * 64 + (b2 - 0x80), 3)
        else (0xFFFD, 1)
      | _ => (0xFFFD, 1)
    else if 0xF0 ≤ b0 ∧ b0 ≤ 0xF4 then
      match rest with
      | b1 :: b2 :: b3 :: _ =>
        if (utf8Accept b0).1 ≤ b1 ∧ b1 ≤ (utf8Accept b0).2 ∧ 0x80 ≤ b2 ∧ b2 ≤ 0xBF
            ∧ 0x80 ≤ b3 ∧ b3 ≤ 0xBF then
          ((b0 - 0xF0) * 262144 + (b1 - 0x80) * 4096 + (b2 - 0x80) * 64 + (b3 - 0x80), 4)
        else (0xFFFD, 1)
      | _ => (0xFFFD, 1)
    else (0xFFFD, 1)

/-- Fueled worker for `utf8Runes`; each step consumes at least one byte, so a
fuel equal to the byte length suffices. -/
def utf8RunesAux : Nat → List Nat → List Nat
  | 0, _ => []
  | _, [] => []
  | fuel + 1, b :: rest =>
    ((utf8Step (b :: rest)).1) :: utf8RunesAux fuel ((b :: rest).drop ((utf8Step (b :: rest)).2.max 1))

/-- Model of Go's `[]rune(s)` conversion: UTF-8 decoding with U+FFFD for
invalid bytes. -/
def utf8Runes (s : List Nat) : List Nat := utf8RunesAux s.length s

/-- Fueled worker for `utf8Chunks`. -/
def utf8ChunksAux : Nat → List Nat → List (List Nat)
  | 0, _ => []
  | _, [] => []
  | fuel + 1, b :: rest =>
    ((b :: rest).take ((utf8Step (b :: rest)).2.max 1))
      :: utf8ChunksAux fuel ((b :: rest).drop ((utf8Step (b :: rest)).2.max 1))

/-- The byte list split at UTF-8 rune boundaries (used only by the degenerate
empty-pattern case of `strings.Replace`). -/
def utf8Chunks (s : List Nat) : List (List Nat) := utf8ChunksAux s.length s

/-- Model of Go's `string(r)` for a rune: UTF-8 encoding, with invalid runes
(surrogates, beyond U+10FFFF) encoded as U+FFFD, as in Go. -/
def utf8Enc (c : Nat) : List Nat :=
  if c < 0x80 then [c]
  else if c < 0x800 then [0xC0 + c / 64, 0x80 + c % 64]
  else if 0xD800 ≤ c ∧ c ≤ 0xDFFF then [0xEF, 0xBF, 0xBD]
  else if c < 0x10000 then [0xE0 + c / 4096, 0x80 + c / 64 % 64, 0x80 + c % 64]
  else if c < 0x110000 then
    [0xF0 + c / 262144, 0x80 + c / 4096 % 64, 0x80 + c / 64 % 64, 0x80 + c % 64]
  else [0xEF, 0xBF, 0xBD]

/-- Whether `pat` is a prefix of `s`. -/
def startsWithB : GoStr → GoStr → Bool
  | _, [] => true
  | [], _ :: _ => false
  | a :: s, b :: p => a = b && startsWithB s p

/-- Fueled worker for `replaceAllNE`; every step consumes at least one byte of
the subject, so a fuel equal to its length suffices. -/
def replaceAllNEAux : Nat → List Nat → List Nat → List Nat → List Nat
  | 0, _, _, _ => []
  | _, [], _, _ => []
  | fuel + 1, b :: rest, f, t =>
    if f ≠ [] ∧ startsWithB (b :: rest) f then
      t ++ replaceAllNEAux fuel ((b :: rest).drop f.length) f t
    else
      b :: replaceAllNEAux fuel rest f t

/-- Model of `strings.Replace(s, from, to, -1)` for a non-empty pattern:
replace leftmost non-overlapping occurrences. -/
def replaceAllNE (s f t : List Nat) : List Nat := replaceAllNEAux s.length s f t

/-- Model of `strings.Replace(s, from, to, -1)` (and `strings.ReplaceAll`):
an empty pattern inserts `to` at every rune boundary, including both ends. -/
def replaceAll (s f t : List Nat) : List Nat :=
  if f = [] then t ++ (utf8Chunks s).foldr (fun ch acc => ch ++ t ++ acc) []
  else replaceAllNE s f t

/-- Model of the Go slice expression `s[a:b]`: fails (panics in Go) unless
`0 ≤ a ≤ b ≤ len s`. -/
def goSlice (s : List Nat) (a b : Int) : Option (List Nat) :=
  if 0 ≤ a ∧ a ≤ b ∧ b ≤ (s.length : Int) then some ((s.take b.toNat).drop a.toNat)
  else none

/-- Model of the Go slice expression `s[a:]`. -/
def goSliceFrom (s : List Nat) (a : Int) : Option (List Nat) := goSlice s a s.length

/-! ### SHA-512 (model of Go's `crypto/sha512.Sum512`, per FIPS 180-4) -/

/-- Reduction modulo 2^64: 64-bit wrap-around. -/
def w64 (n : Nat) : Nat := n % (2 ^ 64)

/-- 64-bit right rotation. -/
def rotr (n x : Nat) : Nat := w64 ((x >>> n) ||| (x <<< (64 - n)))

/-- SHA-512 Σ0. -/
def bigSigma0 (x : Nat) : Nat := rotr 28 x ^^^ rotr 34 x ^^^ rotr 39 x

/-- SHA-512 Σ1. -/
def bigSigma1 (x : Nat) : Nat := rotr 14 x ^^^ rotr 18 x ^^^ rotr 41 x

/-- SHA-512 σ0. -/
def smallSigma0 (x : Nat) : Nat := rotr 1 x ^^^ rotr 8 x ^^^ (x >>> 7)

/-- SHA-512 σ1. -/
def smallSigma1 (x : Nat) : Nat := rotr 19 x ^^^ rotr 61 x ^^^ (x >>> 6)

/-- SHA-512 Ch(x,y,z); the complement of x is taken within 64 bits. -/
def shaCh (x y z : Nat) : Nat := (x &&& y) ^^^ ((x ^^^ (2 ^ 64 - 1)) &&& z)

/-- SHA-512 Maj(x,y,z). -/
def shaMaj (x y z : Nat) : Nat := (x &&& y) ^^^ (x &&& z) ^^^ (y &&& z)

/-- The 80 SHA-512 round constants of FIPS 180-4 (decimal). -/
def shaK : List Nat :=
  [4794697086780616226, 8158064640168781261, 13096744586834688815,
   16840607885511220156, 4131703408338449720, 6480981068601479193,
   10538285296894168987, 12329834152419229976, 15566598209576043074,
   1334009975649890238, 2608012711638119052, 6128411473006802146,
   8268148722764581231, 9286055187155687089, 11230858885718282805,
   13951009754708518548, 16472876342353939154, 17275323862435702243,
   1135362057144423861, 2597628984639134821, 3308224258029322869,
   5365058923640841347, 6679025012923562964, 8573033837759648693,
   10970295158949994411, 12119686244451234320, 12683024718118986047,
   13788192230050041572, 14330467153632333762, 15395433587784984357,
   489312712824947311, 1452737877330783856, 2861767655752347644,
   3322285676063803686, 5560940570517711597, 5996557281743188959,
   7280758554555802590, 8532644243296465576, 9350256976987008742,
   10552545826968843579, 11727347734174303076, 12113106623233404929,
   14000437183269869457, 14369950271660146224, 15101387698204529176,
   15463397548674623760, 17586052441742319658, 1182934255886127544,
   1847814050463011016, 2177327727835720531, 2830643537854262169,
   3796741975233480872, 4115178125766777443, 5681478168544905931,
   6601373596472566643, 7507060721942968483, 8399075790359081724,
   8693463985226723168, 9568029438360202098, 10144078919501101548,
   10430055236837252648, 11840083180663258601, 13761210420658862357,
   14299343276471374635, 14566680578165727644, 15097957966210449927,
   16922976911328602910, 17689382322260857208, 500013540394364858,
   748580250866718886, 1242879168328830382, 1977374033974150939,
   2944078676154940804, 3659926193048069267, 4368137639120453308,
   4836135668995329356, 5532061633213252278, 6448918945643986474,
   6902733635092675308, 7801388544844847127]

/-- The SHA-512 working state: eight 64-bit words. -/
structure H8 where
  a : Nat
  b : Nat
  c : Nat
  d : Nat
  e : Nat
  f : Nat
  g : Nat
  h : Nat
deriving DecidableEq

/-- The SHA-512 initial hash value of FIPS 180-4 (decimal). -/
def shaH0 : H8 :=
  ⟨7640891576956012808, 13503953896175478587, 4354685564936845355,
   11912009170470909681, 5840696475078001361, 11170449401992604703,
   2270897969802886507, 6620516959819538809⟩

/-- `n`-byte big-endian representation of `v`. -/
def beBytes (n v : Nat) : List Nat :=
  (List.range n).map (fun i => v >>> (8 * (n - 1 - i)) % 256)

/-- SHA-512 message padding: a 0x80 byte, zeros to 112 mod 128, then the
128-bit big-endian bit length. -/
def shaPad (msg : List Nat) : List Nat :=
  msg ++ [0x80] ++ List.replicate ((240 - (msg.length + 1) % 128) % 128) 0
    ++ beBytes 16 (8 * msg.length)

/-- Fueled worker for `chunks128`. -/
def chunks128Aux : Nat → List Nat → List (List Nat)
  | 0, _ => []
  | _, [] => []
  | fuel + 1, b :: rest => (b :: rest).take 128 :: chunks128Aux fuel ((b :: rest).drop 128)

/-- Split a byte list into 128-byte blocks. -/
def chunks128 (s : List Nat) : List (List Nat) := chunks128Aux s.length s

/-- The sixteen big-endian 64-bit words of a 128-byte block. -/
def toWords (block : List Nat) : List Nat :=
  (List.range 16).map (fun i =>
    (List.range 8).foldl (fun acc j => acc * 256 + block.getD (8 * i + j) 0) 0)

/-- Extend sixteen message-schedule words to eighty. -/
def buildW (w : List Nat) : List Nat :=
  (List.range 64).foldl
    (fun ws _ =>
      ws ++ [w64 (smallSigma1 (ws.getD (ws.length - 2) 0) + ws.getD (ws.length - 7) 0
        + smallSigma0 (ws.getD (ws.length - 15) 0) + ws.getD (ws.length - 16) 0)])
    w

/-- One SHA-512 compression round. -/
def shaRound (ws : List Nat) (s : H8) (t : Nat) : H8 :=
  let t1 := w64 (s.h + bigSigma1 s.e + shaCh s.e s.f s.g + shaK.getD t 0 + ws.getD t 0)
  let t2 := w64 (bigSigma0 s.a + shaMaj s.a s.b s.c)
  ⟨w64 (t1 + t2), s.a, s.b, s.c, w64 (s.d + t1), s.e, s.f, s.g⟩

/-- Process one 128-byte block. -/
def processBlock (st : H8) (block : List Nat) : H8 :=
  let ws := buildW (toWords block)
  let f := (List.range 80).foldl (shaRound ws) st
  ⟨w64 (st.a + f.a), w64 (st.b + f.b), w64 (st.c + f.c), w64 (st.d + f.d),
   w64 (st.e + f.e), w64 (st.f + f.f), w64 (st.g + f.g), w64 (st.h + f.h)⟩

/-- Model of `sha512.Sum512`: the 64-byte SHA-512 digest of a byte list. -/
def sha512 (msg : List Nat) : List Nat :=
  let st := (chunks128 (shaPad msg)).foldl processBlock shaH0
  beBytes 8 st.a ++ beBytes 8 st.b ++ beBytes 8 st.c ++ beBytes 8 st.d
    ++ beBytes 8 st.e ++ beBytes 8 st.f ++ beBytes 8 st.g ++ beBytes 8 st.h

/-! ### Base64 (model of `base64.StdEncoding.EncodeToString`) -/

/-- The standard base64 alphabet as bytes. -/
def b64Alphabet : GoStr :=
  strB "ABCDEFGHIJKLMNOPQRSTUVWXYZabcdefghijklmnopqrstuvwxyz0123456789+/"

/-- The byte of the base64 character with 6-bit index `n`. -/
def b64c (n : Nat) : Nat := b64Alphabet.getD n 0

/-- Standard padded base64 encoding of a byte list ('=' is byte 61). -/
def base64Encode : List Nat → List Nat
  | b0 :: b1 :: b2 :: rest =>
    b64c (b0 / 4) :: b64c (b0 % 4 * 16 + b1 / 16) :: b64c (b1 % 16 * 4 + b2 / 64)
      :: b64c (b2 % 64) :: base64Encode rest
  | [b0, b1] => [b64c (b0 / 4), b64c (b0 % 4 * 16 + b1 / 16), b64c (b1 % 16 * 4), 61]
  | [b0] => [b64c (b0 / 4), b64c (b0 % 4 * 16), 61, 61]
  | [] => []

/-! ### Filter engine and parser (latest revision: `Filter = func(string) string`) -/

/-- ASCII-level model of `strings.ToUpper` (the working string is base64
text, so only ASCII letters occur; non-ASCII case mapping is not modelled). -/
def goToUpper (s : GoStr) : GoStr := s.map (fun b => if 97 ≤ b ∧ b ≤ 122 then b - 32 else b)

/-- ASCII-level model of `strings.ToLower`. -/
def goToLower (s : GoStr) : GoStr := s.map (fun b => if 65 ≤ b ∧ b ≤ 90 then b + 32 else b)

/-- Model of `filterDigits`: the literal sequence of `strings.ReplaceAll`
calls of the source. -/
def filterDigits (s : GoStr) : GoStr :=
  let s1 := (List.range 20).foldl
    (fun s i => replaceAll (replaceAll s [97 + i] [48 + i % 10]) [65 + i] [48 + i % 10]) s
  let s2 := (List.range' 20 6).foldl
    (fun s i => replaceAll (replaceAll s [97 + i] []) [65 + i] []) s1
  replaceAll (replaceAll s2 [43] []) [47] []

/-- Model of `filterSkip`: for each rune, remove its encoding from the
string. -/
def filterSkip (s : GoStr) (chars : List Nat) : GoStr :=
  chars.foldl (fun s c => replaceAll s (utf8Enc c) []) s

/-- Model of `filterSubstring` (latest revision): a non-negative second
argument is an end index, clipped to the string length from above; a negative
one means "to the end".  Slicing out of range fails (panics in Go). -/
def filterSubstring (s : GoStr) (start e : Int) : Option GoStr :=
  if 0 ≤ e then
    goSlice s start (if (s.length : Int) ≤ e then (s.length : Int) else e)
  else goSliceFrom s start

/-- The closed set of filters produced by `ParseFilter` (latest revision);
each constructor records the captured arguments of the corresponding Go
closure. -/
inductive Filter where
  | replace (f t : GoStr)
  | skip (arg : GoStr)
  | substring (start e : Int)
  | digit
  | uppercase
  | lowercase
deriving DecidableEq

/-- Application of a parsed filter, mirroring the closure bodies of
`ParseFilter` in the latest revision (`skip` decodes its argument to runes at
application time via `[]rune`). -/
def applyFilter : Filter → GoStr → Option GoStr
  | .replace f t, s => some (replaceAll s f t)
  | .skip arg, s => some (filterSkip s (utf8Runes arg))
  | .substring a e, s => filterSubstring s a e
  | .digit, s => some (filterDigits s)
  | .uppercase, s => some (goToUpper s)
  | .lowercase, s => some (goToLower s)

/-- Model of `ParseFilter` (latest revision). -/
def ParseFilter (line : GoStr) : Option Filter :=
  let fields := goFields line
  if fields.length < 2 then none
  else
    let f1 := fields.getD 1 []
    if f1.head? = some 64 then
      let name := f1.tail
      let args := fields.drop 2
      if name = strB "replace" then
        if args.length = 2 then some (.replace (args.getD 0 []) (args.getD 1 [])) else none
      else if name = strB "skip" then
        if args.length = 1 then some (.skip (args.getD 0 [])) else none
      else if name = strB "substring" then
        if args.length < 1 ∨ 2 < args.length then none
        else
          some (.substring ((goAtoi (args.getD 0 [])).getD 0)
            (if 2 ≤ args.length then (goAtoi (args.getD 1 [])).getD (-1) else -1))
      else if name = strB "digit" then some .digit
      else if name = strB "uppercase" then some .uppercase
      else if name = strB "lowercase" then some .lowercase
      else none
    else none

/-! ### Password deriver and site registry (latest revision) -/

/-- A site: a name and the filter chain attached at its declaration. -/
structure Site where
  Name : GoStr
  Filters : List Filter
deriving DecidableEq

/-- Model of `Site.Password`: hash `name:masterPass`, base64-encode, take the
first 32 bytes (byte 58 is ':'), then thread the result through the site's
filters; a failing slice anywhere fails the derivation. -/
def Site.Password (s : Site) (masterPass : GoStr) : Option GoStr := do
  let base ← goSlice (base64Encode (sha512 (s.Name ++ [58] ++ masterPass))) 0 32
  s.Filters.foldlM (fun p f => applyFilter f p) base

/-- Model of `createPassword` from the two earliest revisions (`main.go` and
the revision without filters): the bare base derivation. -/
def createPassword (site masterPass : GoStr) : Option GoStr :=
  goSlice (base64Encode (sha512 (site ++ [58] ++ masterPass))) 0 32

/-- One step of the `loadSites` loop (latest revision): a blank line resets
the pending chain, a '#' line (byte 35) extends it when it parses, and any
other non-empty line declares a site carrying the pending chain. -/
def loadSitesStep (st : List Site × List Filter) (raw : GoStr) : List Site × List Filter :=
  let line := trimSpace raw
  if line = [] then (st.1, [])
  else if line.head? = some 35 then
    match ParseFilter line with
    | some f => (st.1, st.2 ++ [f])
    | none => st
  else (st.1 ++ [⟨line, st.2⟩], st.2)

/-- Model of `loadSites` on an already newline-split line list (reading the
file and splitting on '\n' is the excluded I/O collaborator). -/
def loadSites (lines : List GoStr) : List Site :=
  (lines.foldl loadSitesStep ([], [])).1

/-! ### The interface-based revision (`part_000`): its own filter variants -/

/-- The filters of the interface-based revision: `skip` stores the first rune
of its argument, and `substring` stores a start and a length. -/
inductive Filter0 where
  | replace (f t : GoStr)
  | skip (c : Nat)
  | substring (start length : Int)
deriving DecidableEq

/-- `SubstringFilter.Apply` of the interface-based revision: the end index is
computed as `length - start`, clipped from above to the string length. -/
def substringApply0 (start len : Int) (s : GoStr) : Option GoStr :=
  if 0 ≤ len then
    goSlice s start
      (if (s.length : Int) ≤ len - start then (s.length : Int) else len - start)
  else goSliceFrom s start

/-- `Apply` of the interface-based revision's filters. -/
def applyFilter0 : Filter0 → GoStr → Option GoStr
  | .replace f t, s => some (replaceAll s f t)
  | .skip c, s => some (replaceAll s (utf8Enc c) [])
  | .substring a l, s => substringApply0 a l s

/-- `ParseFilter` of the interface-based revision (kinds `replace`, `skip`,
`substring` only; `skip` keeps the first rune of its argument). -/
def ParseFilter0 (line : GoStr) : Option Filter0 :=
  let fields := goFields line
  if fields.length < 2 then none
  else
    let f1 := fields.getD 1 []
    if f1.head? = some 64 then
      let name := f1.tail
      let args := fields.drop 2
      if name = strB "replace" then
        if args.length = 2 then some (.replace (args.getD 0 []) (args.getD 1 [])) else none
      else if name = strB "skip" then
        if args.length = 1 then some (.skip ((utf8Runes (args.getD 0 [])).headD 0)) else none
      else if name = strB "substring" then
        if args.length < 1 ∨ 2 < args.length then none
        else
          some (.substring ((goAtoi (args.getD 0 [])).getD 0)
            (if 2 ≤ args.length then (goAtoi (args.getD 1 [])).getD (-1) else -1))
      else none
    else none

/-- A site of the interface-based revision. -/
structure Site0 where
  Name : GoStr
  Filters : List Filter0
deriving DecidableEq

/-- `Site.Password` of the interface-based revision. -/
def Site0.Password (s : Site0) (masterPass : GoStr) : Option GoStr := do
  let base ← goSlice (base64Encode (sha512 (s.Name ++ [58] ++ masterPass))) 0 32
  s.Filters.foldlM (fun p f => applyFilter0 f p) base

/-! ### Specification-side definitions (stated from the claims' wording) -/

/-- Spec wording for the digit map: 'a'..'t' and 'A'..'T' map to '0'..'9'
cyclically, 'u'..'z', 'U'..'Z', '+' and '/' are dropped, and every other
byte is kept in place. -/
def digitMapSpec (b : Nat) : List Nat :=
  if 97 ≤ b ∧ b ≤ 116 then [48 + (b - 97) % 10]
  else if 65 ≤ b ∧ b ≤ 84 then [48 + (b - 65) % 10]
  else if (117 ≤ b ∧ b ≤ 122) ∨ (85 ≤ b ∧ b ≤ 90) ∨ b = 43 ∨ b = 47 then []
  else [b]

/-- A raw line is blank when it is whitespace-only. -/
def isBlankLine (raw : GoStr) : Bool := trimSpace raw = []

/-- The lines after the most recent blank line (or the whole list when no
line is blank). -/
def afterLastBlank (l : List GoStr) : List GoStr :=
  (l.reverse.takeWhile (fun r => !isBlankLine r)).reverse

/-- Spec wording for the chain a site declared right after `l` should carry:
the successfully parsed filters of the '#'-prefixed trimmed lines after the
most recent blank line, in order. -/
def expectedChain (l : List GoStr) : List Filter :=
  (((afterLastBlank l).map trimSpace).filter (fun s => s.head? = some 35)).filterMap ParseFilter

/-! ### Helper lemmas -/

theorem beBytes_length (n v : Nat) : (beBytes n v).length = n := by
  simp [beBytes]

theorem sha512_length (msg : List Nat) : (sha512 msg).length = 64 := by
  simp [sha512, beBytes_length]

theorem base64Encode_length (s : List Nat) :
    (base64Encode s).length = 4 * ((s.length + 2) / 3) := by
  match s with
  | [] => rfl
  | [b0] => simp [base64Encode]
  | [b0, b1] => simp [base64Encode]
  | b0 :: b1 :: b2 :: rest =>
    have ih := base64Encode_length rest
    simp only [base64Encode, List.length_cons, ih]
    omega

theorem base64_sha512_length (msg : List Nat) :
    (base64Encode (sha512 msg)).length = 88 := by
  rw [base64Encode_length, sha512_length]

theorem goSlice_from_zero (s : List Nat) : goSliceFrom s 0 = some s := by
  simp [goSliceFrom, goSlice]

theorem goSlice_zero_some (s : List Nat) (n : Nat) (h : n ≤ s.length) :
    goSlice s 0 (n : Int) = some (s.take n) := by
  simp [goSlice]
  omega

theorem replaceAllNEAux_single (c : Nat) (t : List Nat) :
    ∀ fuel s, s.length ≤ fuel →
      replaceAllNEAux fuel s [c] t = s.flatMap (fun b => if b = c then t else [b])
  | fuel, [], _ => by cases fuel <;> simp [replaceAllNEAux]
  | 0, b :: rest, h => by simp at h
  | fuel + 1, b :: rest, h => by
    have ih := replaceAllNEAux_single c t fuel rest (by simp at h; omega)
    by_cases hbc : b = c
    · subst hbc
      simp [replaceAllNEAux, startsWithB, ih]
    · simp [replaceAllNEAux, startsWithB, hbc, ih]

/-- `strings.Replace` with a single-byte pattern substitutes pointwise. -/
theorem replaceAll_single (s : List Nat) (c : Nat) (t : List Nat) :
    replaceAll s [c] t = s.flatMap (fun b => if b = c then t else [b]) := by
  simp [replaceAll, replaceAllNE, replaceAllNEAux_single c t s.length s le_rfl]

theorem replaceAll_single_append (u v : List Nat) (c : Nat) (t : List Nat) :
    replaceAll (u ++ v) [c] t = replaceAll u [c] t ++ replaceAll v [c] t := by
  simp [replaceAll_single, List.flatMap_append]

theorem foldl_append_distrib {α : Type} (g : List Nat → α → List Nat)
    (h : ∀ a u v, g (u ++ v) a = g u a ++ g v a) :
    ∀ (l : List α) (u v : List Nat), l.foldl g (u ++ v) = l.foldl g u ++ l.foldl g v
  | [], _, _ => rfl
  | a :: l, u, v => by
    simp only [List.foldl_cons, h a u v]
    exact foldl_append_distrib g h l _ _

theorem filterDigits_append (u v : GoStr) :
    filterDigits (u ++ v) = filterDigits u ++ filterDigits v := by
  simp only [filterDigits]
  rw [foldl_append_distrib _ (fun i x y => by rw [replaceAll_single_append, replaceAll_single_append]),
    foldl_append_distrib _ (fun i x y => by rw [replaceAll_single_append, replaceAll_single_append]),
    replaceAll_single_append, replaceAll_single_append]

set_option maxRecDepth 40000 in
theorem filterDigits_pointwise : ∀ b < 256, filterDigits [b] = digitMapSpec b := by decide

theorem utf8RunesAux_ascii :
    ∀ fuel s, s.length ≤ fuel → (∀ b ∈ s, b < 128) → utf8RunesAux fuel s = s
  | fuel, [], _, _ => by cases fuel <;> simp [utf8RunesAux]
  | 0, b :: rest, h, _ => by simp at h
  | fuel + 1, b :: rest, h, ha => by
    have hb : b < 128 := ha b (by simp)
    have ih := utf8RunesAux_ascii fuel rest (by simp at h; omega)
      (fun d hd => ha d (by simp [hd]))
    simp [utf8RunesAux, utf8Step, hb, ih]

/-- `[]rune` is the identity on ASCII byte lists. -/
theorem utf8Runes_ascii (s : List Nat) (h : ∀ b ∈ s, b < 128) : utf8Runes s = s :=
  utf8RunesAux_ascii s.length s le_rfl h

theorem utf8Enc_ascii (c : Nat) (h : c < 128) : utf8Enc c = [c] := by
  simp [utf8Enc, h]

theorem flatMap_if_filter (s : List Nat) (c : Nat) :
    (s.flatMap fun b => if b = c then [] else [b]) = s.filter (fun b => !(b == c)) := by
  induction s with
  | nil => rfl
  | cons b rest ih =>
    by_cases hbc : b = c <;> simp [hbc, ih]

/-- Sequentially removing a list of ASCII characters filters them all out. -/
theorem filterSkip_ascii :
    ∀ (cs : List Nat) (s : GoStr), (∀ c ∈ cs, c < 128) →
      filterSkip s cs = s.filter (fun b => !cs.contains b)
  | [], s, _ => by simp [filterSkip]
  | c :: cs, s, h => by
    have hc : c < 128 := h c (by simp)
    have ih := filterSkip_ascii cs (replaceAll s (utf8Enc c) [])
      (fun d hd => h d (by simp [hd]))
    have step : filterSkip s (c :: cs) = filterSkip (replaceAll s (utf8Enc c) []) cs := by
      simp [filterSkip]
    rw [step, ih, utf8Enc_ascii c hc, replaceAll_single, flatMap_if_filter,
      List.filter_filter]
    exact List.filter_congr (fun b _ => by
      by_cases hbc : b = c <;> simp [hbc, List.contains_cons])

theorem takeWhile_append_left {α : Type} (q : α → Bool) (xs ys : List α)
    (h : ∀ a ∈ xs, q a = true) : (xs ++ ys).takeWhile q = xs ++ ys.takeWhile q := by
  induction xs with
  | nil => simp
  | cons x xs ih =>
    have hx : q x = true := h x (by simp)
    simp only [List.cons_append, List.takeWhile_cons, hx, if_true]
    rw [ih (fun a ha => h a (by simp [ha]))]

theorem takeWhile_append_stop {α : Type} (q : α → Bool) (xs ys : List α)
    (h : ¬ ∀ a ∈ xs, q a = true) : (xs ++ ys).takeWhile q = xs.takeWhile q := by
  induction xs with
  | nil => exact absurd (by simp) h
  | cons x xs ih =>
    by_cases hx : q x = true
    · simp only [List.cons_append, List.takeWhile_cons, hx, if_true]
      rw [ih (fun hall => h (fun a ha => by
        rcases List.mem_cons.mp ha with rfl | ha'
        · exact hx
        · exact hall a ha'))]
    · simp only [List.cons_append, List.takeWhile_cons]
      rw [Bool.not_eq_true] at hx
      simp [hx]

theorem afterLastBlank_of_no_blank (l : List GoStr) (h : l.any isBlankLine = false) :
    afterLastBlank l = l := by
  unfold afterLastBlank
  rw [List.takeWhile_eq_self_iff.mpr, List.reverse_reverse]
  intro a ha
  rw [List.mem_reverse] at ha
  rw [List.any_eq_false] at h
  simp [h a ha]

theorem afterLastBlank_cons (raw : GoStr) (rest : List GoStr) :
    afterLastBlank (raw :: rest)
      = if rest.any isBlankLine then afterLastBlank rest
        else if isBlankLine raw then rest else raw :: rest := by
  unfold afterLastBlank
  rw [List.reverse_cons]
  by_cases h : rest.any isBlankLine
  · rw [takeWhile_append_stop]
    · simp [h]
    · rw [List.any_eq_true] at h
      obtain ⟨x, hx, hb⟩ := h
      intro hall
      have := hall x (by simpa using hx)
      rw [hb] at this
      simp at this
  · rw [takeWhile_append_left]
    · by_cases hb : isBlankLine raw
      · simp [h, hb, List.takeWhile_cons]
      · simp [h, hb, List.takeWhile_cons]
    · intro a ha
      rw [List.mem_reverse] at ha
      rw [Bool.not_eq_true, List.any_eq_false] at h
      simp [h a ha]

theorem loadSitesStep_shift (raw : GoStr) (st : List Site × List Filter) :
    loadSitesStep st raw
      = (st.1 ++ (loadSitesStep ([], st.2) raw).1, (loadSitesStep ([], st.2) raw).2) := by
  unfold loadSitesStep
  by_cases h1 : trimSpace raw = []
  · simp [h1]
  · by_cases h2 : (trimSpace raw).head? = some 35
    · cases hp : ParseFilter (trimSpace raw) <;> simp [h1, h2, hp]
    · simp [h1, h2]

theorem foldl_loadSites_shift :
    ∀ (l : List GoStr) (st : List Site × List Filter),
      List.foldl loadSitesStep st l
        = (st.1 ++ (List.foldl loadSitesStep ([], st.2) l).1,
           (List.foldl loadSitesStep ([], st.2) l).2)
  | [], st => by simp
  | raw :: l, st => by
    simp only [List.foldl_cons]
    rw [loadSitesStep_shift raw st,
      foldl_loadSites_shift l (st.1 ++ (loadSitesStep ([], st.2) raw).1,
        (loadSitesStep ([], st.2) raw).2),
      foldl_loadSites_shift l (loadSitesStep ([], st.2) raw)]
    simp [List.append_assoc]

theorem loadSites_append (l₁ l₂ : List GoStr) :
    loadSites (l₁ ++ l₂)
      = loadSites l₁
        ++ (List.foldl loadSitesStep ([], (List.foldl loadSitesStep ([], []) l₁).2) l₂).1 := by
  unfold loadSites
  rw [List.foldl_append, foldl_loadSites_shift l₂ (List.foldl loadSitesStep ([], []) l₁)]

theorem snd_foldl_loadSites :
    ∀ (l : List GoStr) (st : List Site × List Filter),
      (List.foldl loadSitesStep st l).2
        = (if l.any isBlankLine then [] else st.2) ++ expectedChain l
  | [], st => by simp [expectedChain, afterLastBlank]
  | raw :: l, st => by
    simp only [List.foldl_cons, List.any_cons]
    rw [snd_foldl_loadSites l (loadSitesStep st raw)]
    by_cases h1 : trimSpace raw = []
    · have hb : isBlankLine raw = true := by simp [isBlankLine, h1]
      have hstep : (loadSitesStep st raw).2 = [] := by simp [loadSitesStep, h1]
      rw [hstep]
      simp only [hb]
      have hec : expectedChain (raw :: l) = expectedChain l := by
        unfold expectedChain
        rw [afterLastBlank_cons]
        by_cases ha : l.any isBlankLine
        · simp [ha]
        · rw [Bool.not_eq_true] at ha
          simp [ha, hb, afterLastBlank_of_no_blank l ha]
      rw [hec]
      simp
    · have hb : isBlankLine raw = false := by simp [isBlankLine, h1]
      simp only [hb, Bool.false_or]
      by_cases h2 : (trimSpace raw).head? = some 35
      · cases hp : ParseFilter (trimSpace raw) with
        | none =>
          have hstep : (loadSitesStep st raw).2 = st.2 := by
            simp [loadSitesStep, h1, h2, hp]
          rw [hstep]
          have hec : expectedChain (raw :: l)
              = (if l.any isBlankLine then ([] : List Filter) else []) ++ expectedChain l := by
            unfold expectedChain
            rw [afterLastBlank_cons]
            by_cases ha : l.any isBlankLine
            · simp [ha]
            · rw [Bool.not_eq_true] at ha
              simp [ha, hb, afterLastBlank_of_no_blank l ha, h2, hp]
          rw [hec]
          by_cases ha : l.any isBlankLine <;> simp [ha]
        | some f =>
          have hstep : (loadSitesStep st raw).2 = st.2 ++ [f] := by
            simp [loadSitesStep, h1, h2, hp]
          rw [hstep]
          have hec : expectedChain (raw :: l)
              = (if l.any isBlankLine then ([] : List Filter) else [f]) ++ expectedChain l := by
            unfold expectedChain
            rw [afterLastBlank_cons]
            by_cases ha : l.any isBlankLine
            · simp [ha]
            · rw [Bool.not_eq_true] at ha
              simp [ha, hb, afterLastBlank_of_no_blank l ha, h2, hp]
          rw [hec]
          by_cases ha : l.any isBlankLine <;> simp [ha]
      · have hstep : (loadSitesStep st raw).2 = st.2 := by
          simp [loadSitesStep, h1, h2]
        rw [hstep]
        have hec : expectedChain (raw :: l) = expectedChain l := by
          unfold expectedChain
          rw [afterLastBlank_cons]
          by_cases ha : l.any isBlankLine
          · simp [ha]
          · rw [Bool.not_eq_true] at ha
            simp [ha, hb, afterLastBlank_of_no_blank l ha, h2]
        rw [hec]

theorem pending_after (pre : List GoStr) :
    (List.foldl loadSitesStep ([], []) pre).2 = expectedChain pre := by
  rw [snd_foldl_loadSites pre ([], [])]
  by_cases h : pre.any isBlankLine <;> simp [h]

theorem goSlice_zero32 (s : List Nat) (h : 32 ≤ s.length) :
    goSlice s 0 32 = some (s.take 32) := by
  have h' : (32 : Int) ≤ (s.length : Int) := by exact_mod_cast h
  simp [goSlice, h']

/-- The working string of the deriver with an empty filter chain. -/
theorem password_empty_chain (s m : GoStr) :
    Site.Password ⟨s, []⟩ m = some ((base64Encode (sha512 (s ++ [58] ++ m))).take 32) := by
  have h88 := base64_sha512_length (s ++ [58] ++ m)
  simp only [Site.Password]
  rw [goSlice_zero32 _ (by omega)]
  rfl

/-! ### Claim theorems -/

set_option maxRecDepth 100000

/-- Claim C1: for every site name `s` and master password `m`, the working
string before any filter (hence the result of the deriver with an empty
chain) is the first 32 characters of the standard padded base64 encoding of
SHA-512 of `s ++ ":" ++ m`; concretely checked at site "x" and master "y". -/
theorem C1_derive_base :
    (∀ s m : GoStr, Site.Password ⟨s, []⟩ m
        = some ((base64Encode (sha512 (s ++ [58] ++ m))).take 32))
    ∧ (base64Encode (sha512 (strB "x" ++ [58] ++ strB "y"))).take 32
        = strB "0gp8s+vSbiymEXpLbm/Dk/OFrbgnp9NY" := by
  refine ⟨password_empty_chain, ?_⟩
  decide

/-- Claim C8: the base64 encoding of the 512-bit digest is always exactly 88
characters, so the `[0:32]` truncation of the deriver is always in bounds and
never takes the failing branch. -/
theorem C8_truncation_in_bounds (s m : GoStr) :
    (base64Encode (sha512 (s ++ [58] ++ m))).length = 88
      ∧ goSlice (base64Encode (sha512 (s ++ [58] ++ m))) 0 32
          = some ((base64Encode (sha512 (s ++ [58] ++ m))).take 32) := by
  have h88 := base64_sha512_length (s ++ [58] ++ m)
  exact ⟨h88, goSlice_zero32 _ (by omega)⟩

/-- Claim C5, counterexample: with the filter chain `[substring 0 8]` (the
specification's own end-to-end example) the derived password for site
"example.com" and master "hunter2" has 8 characters, not 32. -/
theorem C5_counterexample :
    (Site.Password ⟨strB "example.com", [.substring 0 8]⟩ (strB "hunter2")).map List.length
        = some 8 ∧ (8 : Nat) ≠ 32 := by
  constructor
  · decide
  · decide

/-- Claim C5, amended: the deriver returns a 32-character string for every
site whose filter chain is empty; an attached filter may change the length. -/
theorem C5_amended (s m : GoStr) :
    ∃ w, Site.Password ⟨s, []⟩ m = some w ∧ w.length = 32 := by
  refine ⟨_, password_empty_chain s m, ?_⟩
  rw [List.length_take, base64_sha512_length]
  norm_num

/-- Claim C10: the base derivation of the earliest revision's
`createPassword` agrees with `Site.Password` on an empty filter chain in both
later revisions (function-valued filters and interface-based filters). -/
theorem C10_revisions_agree (s m : GoStr) :
    createPassword s m = Site.Password ⟨s, []⟩ m
      ∧ createPassword s m = Site0.Password ⟨s, []⟩ m := by
  constructor <;>
  · simp only [createPassword, Site.Password, Site0.Password, List.foldlM]
    cases goSlice (base64Encode (sha512 (s ++ [58] ++ m))) 0 32 <;> rfl

/-- Claim C2, counterexample: the filter parsed from `# @substring 5 3`
applied to the 10-character string "0123456789" does not return "567"; the
second argument is an end index and the slice `[5:3]` is invalid, so the
application fails (a panic in Go). -/
theorem C2_counterexample :
    ParseFilter (strB "# @substring 5 3") = some (.substring 5 3)
      ∧ applyFilter (.substring 5 3) (strB "0123456789") ≠ some (strB "567")
      ∧ applyFilter (.substring 5 3) (strB "0123456789") = none := by
  refine ⟨by decide, by decide, by decide⟩

/-- Claim C2, amended: `substring` with start 0 and no second argument
returns any string unchanged; on a 10-character string, start 5 with second
argument 3 fails (as does the interface-based revision, whose computed end is
`3 - 5`), while the 3-character slice at indices 5..7 is obtained with second
argument 8. -/
theorem C2_amended (s : GoStr) :
    applyFilter (.substring 0 (-1)) s = some s
      ∧ (s.length = 10 →
          applyFilter (.substring 5 3) s = none
            ∧ applyFilter (.substring 5 8) s = some ((s.drop 5).take 3)
            ∧ applyFilter0 (.substring 5 3) s = none) := by
  refine ⟨?_, fun h10 => ⟨?_, ?_, ?_⟩⟩
  · simp [applyFilter, filterSubstring, goSliceFrom, goSlice]
  · have hl : (s.length : Int) = 10 := by exact_mod_cast h10
    simp [applyFilter, filterSubstring, goSlice, hl]
  · have hl : (s.length : Int) = 10 := by exact_mod_cast h10
    simp [applyFilter, filterSubstring, goSlice, hl]
    rw [List.drop_take]
  · have hl : (s.length : Int) = 10 := by exact_mod_cast h10
    simp [applyFilter0, substringApply0, goSlice, hl]

/-- Claim C2, witness: on "0123456789", start 0 with no second argument is
the identity and start 5 with second argument 8 yields "567". -/
theorem C2_witness :
    applyFilter (.substring 0 (-1)) (strB "0123456789") = some (strB "0123456789")
      ∧ applyFilter (.substring 5 8) (strB "0123456789") = some (strB "567") := by
  have h := C2_amended (strB "0123456789")
  refine ⟨h.1, ?_⟩
  rw [(h.2 (by decide)).2.1]
  decide

/-- Claim C3: a site declared by line `raw` (non-blank, not '#'-prefixed
after trimming) right after the lines `pre` carries exactly the successfully
parsed filters of the '#'-prefixed lines after the most recent blank line of
`pre`, whatever lines follow. -/
theorem C3_chain_scoping (pre post : List GoStr) (raw : GoStr)
    (h1 : trimSpace raw ≠ []) (h2 : ¬ (trimSpace raw).head? = some 35) :
    (loadSites (pre ++ raw :: post))[(loadSites pre).length]?
      = some ⟨trimSpace raw, expectedChain pre⟩ := by
  rw [loadSites_append]
  have hstep : loadSitesStep ([], (List.foldl loadSitesStep ([], []) pre).2) raw
      = ([⟨trimSpace raw, (List.foldl loadSitesStep ([], []) pre).2⟩],
         (List.foldl loadSitesStep ([], []) pre).2) := by
    simp [loadSitesStep, h1, h2]
  rw [List.foldl_cons, hstep,
    foldl_loadSites_shift post
      ([⟨trimSpace raw, (List.foldl loadSitesStep ([], []) pre).2⟩],
       (List.foldl loadSitesStep ([], []) pre).2)]
  rw [List.getElem?_append_right (le_refl (loadSites pre).length)]
  simp [pending_after pre]

/-- Claim C3, witness: with `# @uppercase` pending, `site-a` receives the
chain `[uppercase]`, and the scope survives the later blank line and site. -/
theorem C3_witness :
    (loadSites ([strB "# @uppercase"] ++ strB "site-a" :: [strB "", strB "site-b"]))[
        (loadSites [strB "# @uppercase"]).length]?
      = some ⟨trimSpace (strB "site-a"), expectedChain [strB "# @uppercase"]⟩ :=
  C3_chain_scoping [strB "# @uppercase"] [strB "", strB "site-b"] (strB "site-a")
    (by decide) (by decide)

/-- Claim C9: once a site is in the registry, processing any further lines
leaves its entry (name and filter chain) unchanged. -/
theorem C9_sites_frozen (pre more : List GoStr) (i : Nat)
    (hi : i < (loadSites pre).length) :
    (loadSites (pre ++ more))[i]? = (loadSites pre)[i]? := by
  rw [loadSites_append]
  exact List.getElem?_append_left hi

/-- Claim C9, witness: the entry of `site-a` is untouched by a later blank
line, filter line and site line. -/
theorem C9_witness :
    (loadSites ([strB "# @digit", strB "site-a"] ++ [strB "", strB "# @uppercase", strB "site-b"]))[0]?
      = (loadSites [strB "# @digit", strB "site-a"])[0]? :=
  C9_sites_frozen [strB "# @digit", strB "site-a"]
    [strB "", strB "# @uppercase", strB "site-b"] 0 (by decide)

/-- Claim C4, counterexample: `# @skip ab` parses to a skip filter carrying
the whole argument "ab", and applying it to "b" removes the 'b' as well, so
the filter does not remove only the first character of its argument. -/
theorem C4_counterexample :
    ParseFilter (strB "# @skip ab") = some (.skip (strB "ab"))
      ∧ applyFilter (.skip (strB "ab")) (strB "b") = some []
      ∧ strB "b" ≠ [] := by
  refine ⟨by decide, by decide, by decide⟩

/-- Claim C4, amended: a line whose fields are `#`, `@skip`, `C` (ASCII `C`)
parses to a skip filter that removes every occurrence of every character of
`C` and nothing else (the interface-based revision instead keeps only the
first character of `C`); any other argument count yields no filter. -/
theorem C4_amended (line C : GoStr)
    (hf : goFields line = [strB "#", strB "@skip", C])
    (hC : ∀ b ∈ C, b < 128) :
    ParseFilter line = some (.skip C)
      ∧ (∀ s : GoStr, applyFilter (.skip C) s = some (s.filter (fun b => !C.contains b)))
      ∧ (∀ line' f0 args, goFields line' = f0 :: strB "@skip" :: args → args.length ≠ 1 →
          ParseFilter line' = none) := by
  refine ⟨?_, ?_, ?_⟩
  · simp [ParseFilter, hf, strB, List.getD]
  · intro s
    simp only [applyFilter, utf8Runes_ascii C hC, filterSkip_ascii C s hC]
  · intro line' f0 args hf' hargs
    simp [ParseFilter, hf', strB, List.getD, hargs]

/-- Claim C4, witness: `# @skip ab` parses, and the resulting filter deletes
every 'a' and 'b' from "xaybza" leaving "xyz". -/
theorem C4_witness :
    ParseFilter (strB "# @skip ab") = some (.skip (strB "ab"))
      ∧ applyFilter (.skip (strB "ab")) (strB "xaybza") = some (strB "xyz") := by
  have h := C4_amended (strB "# @skip ab") (strB "ab") (by decide) (by decide)
  refine ⟨h.1, ?_⟩
  rw [h.2.1 (strB "xaybza")]
  decide

/-- Claim C7: the digit filter maps 'a'..'t' and 'A'..'T' to '0'..'9'
cyclically, drops 'u'..'z', 'U'..'Z', '+' and '/', and keeps every other
byte in place. -/
theorem C7_digit_map (s : GoStr) (h : ∀ b ∈ s, b < 256) :
    filterDigits s = s.flatMap digitMapSpec := by
  induction s with
  | nil => rfl
  | cons b rest ih =>
    have hb := h b (by simp)
    have hr : ∀ x ∈ rest, x < 256 := fun x hx => h x (by simp [hx])
    have happ := filterDigits_append [b] rest
    simp only [List.singleton_append] at happ
    rw [happ, ih hr, filterDigits_pointwise b hb, List.flatMap_cons]

/-- Claim C7, witness: the digit filter turns "aAtTuUzZ+/0gp8" into
"00990658". -/
theorem C7_witness : filterDigits (strB "aAtTuUzZ+/0gp8") = strB "00990658" := by
  rw [C7_digit_map (strB "aAtTuUzZ+/0gp8") (by decide)]
  decide

/-- Claim C6: the parser yields no filter exactly when the line has fewer
than two fields, or field 1 lacks the '@' prefix (byte 64), or the kind is
unknown, or a known kind has the wrong argument count (`replace` ≠ 2, `skip`
≠ 1, `substring` 0 or more than 2); no error is raised, and the registry
loop leaves its state unchanged on such a '#' line. -/
theorem C6_parse_rejects (line : GoStr) :
    ((goFields line).length < 2 → ParseFilter line = none)
    ∧ (∀ f0 f1 args, goFields line = f0 :: f1 :: args →
        (ParseFilter line = none ↔
          f1.head? ≠ some 64
          ∨ (f1.tail ≠ strB "replace" ∧ f1.tail ≠ strB "skip" ∧ f1.tail ≠ strB "substring"
              ∧ f1.tail ≠ strB "digit" ∧ f1.tail ≠ strB "uppercase" ∧ f1.tail ≠ strB "lowercase")
          ∨ (f1.tail = strB "replace" ∧ args.length ≠ 2)
          ∨ (f1.tail = strB "skip" ∧ args.length ≠ 1)
          ∨ (f1.tail = strB "substring" ∧ (args.length = 0 ∨ 2 < args.length))))
    ∧ (∀ st raw, trimSpace raw ≠ [] → (trimSpace raw).head? = some 35 →
        ParseFilter (trimSpace raw) = none → loadSitesStep st raw = st) := by
  refine ⟨?_, ?_, ?_⟩
  · intro h
    simp only [ParseFilter]
    rw [if_pos h]
  · intro f0 f1 args hf
    have hrs : strB "replace" ≠ strB "skip" := by decide
    have hrsub : strB "replace" ≠ strB "substring" := by decide
    have hssub : strB "skip" ≠ strB "substring" := by decide
    have hsr : strB "skip" ≠ strB "replace" := by decide
    have hsubr : strB "substring" ≠ strB "replace" := by decide
    have hsubs : strB "substring" ≠ strB "skip" := by decide
    have hdr : strB "digit" ≠ strB "replace" := by decide
    have hds : strB "digit" ≠ strB "skip" := by decide
    have hdsub : strB "digit" ≠ strB "substring" := by decide
    have hur : strB "uppercase" ≠ strB "replace" := by decide
    have hus : strB "uppercase" ≠ strB "skip" := by decide
    have husub : strB "uppercase" ≠ strB "substring" := by decide
    have hlr : strB "lowercase" ≠ strB "replace" := by decide
    have hls : strB "lowercase" ≠ strB "skip" := by decide
    have hlsub : strB "lowercase" ≠ strB "substring" := by decide
    simp only [ParseFilter, hf, List.length_cons, List.getD_cons_succ, List.getD_cons_zero,
      List.drop_succ_cons, List.drop_zero]
    rw [if_neg (by omega)]
    by_cases h64 : f1.head? = some 64
    · rw [if_pos h64]
      by_cases h1 : f1.tail = strB "replace"
      · rw [if_pos h1]
        by_cases ha : args.length = 2
        · simp [ha, h64, h1, hrs, hrsub, hssub, hsr, hsubr, hsubs, hdr, hds, hdsub, hur, hus, husub, hlr, hls, hlsub]
        · simp [ha, h64, h1, hrs, hrsub, hssub, hsr, hsubr, hsubs, hdr, hds, hdsub, hur, hus, husub, hlr, hls, hlsub]
      · rw [if_neg h1]
        by_cases h2 : f1.tail = strB "skip"
        · rw [if_pos h2]
          by_cases ha : args.length = 1
          · simp [ha, h64, h1, h2, hrs, hrsub, hssub, hsr, hsubr, hsubs, hdr, hds, hdsub, hur, hus, husub, hlr, hls, hlsub]
          · simp [ha, h64, h1, h2, hrs, hrsub, hssub, hsr, hsubr, hsubs, hdr, hds, hdsub, hur, hus, husub, hlr, hls, hlsub]
        · rw [if_neg h2]
          by_cases h3 : f1.tail = strB "substring"
          · rw [if_pos h3]
            by_cases ha : args.length < 1 ∨ 2 < args.length
            · rw [if_pos ha]
              simp [h64, h1, h2, h3, hrs, hrsub, hssub, hsr, hsubr, hsubs, hdr, hds, hdsub, hur, hus, husub, hlr, hls, hlsub]
              rcases ha with h | h
              · exact Or.inl (List.length_eq_zero.mp (by omega))
              · exact Or.inr h
            · rw [if_neg ha]
              simp [h64, h1, h2, h3, hrs, hrsub, hssub, hsr, hsubr, hsubs, hdr, hds, hdsub, hur, hus, husub, hlr, hls, hlsub]
              push_neg at ha
              refine ⟨?_, by omega⟩
              intro hnil
              rw [hnil] at ha
              simp at ha
          · rw [if_neg h3]
            by_cases h4 : f1.tail = strB "digit"
            · rw [if_pos h4]
              simp [h4, h64, h1, h2, h3, hrs, hrsub, hssub, hsr, hsubr, hsubs, hdr, hds, hdsub, hur, hus, husub, hlr, hls, hlsub]
            · rw [if_neg h4]
              by_cases h5 : f1.tail = strB "uppercase"
              · rw [if_pos h5]
                simp [h5, h64, h1, h2, h3, h4, hrs, hrsub, hssub, hsr, hsubr, hsubs, hdr, hds, hdsub, hur, hus, husub, hlr, hls, hlsub]
              · rw [if_neg h5]
                by_cases h6 : f1.tail = strB "lowercase"
                · rw [if_pos h6]
                  simp [h6, h64, h1, h2, h3, h4, h5, hrs, hrsub, hssub, hsr, hsubr, hsubs, hdr, hds, hdsub, hur, hus, husub, hlr, hls, hlsub]
                · rw [if_neg h6]
                  simp [h64, h1, h2, h3, h4, h5, h6]
    · rw [if_neg h64]
      simp [h64]
  · intro st raw hr1 hr2 hp
    simp [loadSitesStep, hr1, hr2, hp]

/-- Claim C6, witness: a `replace` directive with one argument and a '#'
line without the '@' prefix both yield no filter. -/
theorem C6_witness :
    ParseFilter (strB "# @replace onlyonearg") = none
      ∧ ParseFilter (strB "# notafilter") = none := by
  have h := C6_parse_rejects (strB "# @replace onlyonearg")
  have h' := C6_parse_rejects (strB "# notafilter")
  constructor
  · exact (h.2.1 (strB "#") (strB "@replace") [strB "onlyonearg"] (by decide)).mpr (by decide)
  · exact (h'.2.1 (strB "#") (strB "notafilter") [] (by decide)).mpr (by decide)

end Kagi
